import Mathlib

/-!
Verification development for the IPC-Debugger repository.

The embedding models `core/realtime_analyzer.py` (class `RealTimeAnalyzer`)
and `gui/worker.py` (class `MonitorWorker`).  Python dicts that are iterated
in insertion order are modelled as association lists; Python floats that only
undergo addition and comparison are modelled as rationals; Python exceptions
are modelled with `Except`.  A contention record whose `Total_Wait_Time` key
is absent is modelled as `none`, so the `data[...]` lookup in the source
becomes a `KeyError`-style `Except.error`.  Wall-clock bookkeeping
(`last_analysis_time = time.time()`) and the GUI flag `monitoring_active`
play no role in any analyzed behavior and are omitted from the state.
-/

namespace IPC

/-- Equality of `Except` values is decidable when it is on both sides. -/
instance {ε α : Type} [DecidableEq ε] [DecidableEq α] : DecidableEq (Except ε α) := fun x y =>
  match x, y with
  | Except.error a, Except.error b =>
    if h : a = b then isTrue (congrArg Except.error h)
    else isFalse (fun hc => h (Except.error.inj hc))
  | Except.error _, Except.ok _ => isFalse (fun hc => Except.noConfusion hc)
  | Except.ok _, Except.error _ => isFalse (fun hc => Except.noConfusion hc)
  | Except.ok a, Except.ok b =>
    if h : a = b then isTrue (congrArg Except.ok h)
    else isFalse (fun hc => h (Except.ok.inj hc))

/-- An analyzer event, as built in `analyze_system_state`: a dict with keys
`time`, `type` (a severity string, one of "ERROR"/"WARNING"; the GUI also
recognizes "INFO") and `message`. -/
structure Event where
  time : ℚ
  type : String
  message : String
deriving DecidableEq, Repr

/-- One sample, the value returned by `monitor_resource_contention_mock`:
a contention mapping (resource name to the record holding `Total_Wait_Time`,
`none` when that key is missing) in insertion order, plus `throughput_rate`. -/
structure Sample where
  contention : List (String × Option Int)
  throughput_rate : ℚ
deriving DecidableEq, Repr

/-- The mutable state of `RealTimeAnalyzer` (`__init__`), minus the two
wall-clock/GUI fields that no analyzed behavior reads.  The dict
`throughput_data` with keys `Time` and `Cumulative_Transferred` is
modelled as the two lists. -/
structure RealTimeAnalyzer where
  total_seconds_monitored : ℚ
  cumulative_transferred : ℚ
  throughput_time : List ℚ
  throughput_cumulative : List ℚ
  events : List Event
  last_contention_data : List (String × Option Int)
deriving DecidableEq, Repr

/-- `RealTimeAnalyzer.__init__`: all counters zeroed, all containers empty. -/
def initAnalyzer : RealTimeAnalyzer :=
  { total_seconds_monitored := 0
    cumulative_transferred := 0
    throughput_time := []
    throughput_cumulative := []
    events := []
    last_contention_data := [] }

/-- The ERROR message f-string of the contention scan. -/
def errMsg (name : String) : String :=
  "HIGH CONTENTION: The resource \x27" ++ name ++ "\x27 is severely contested (Wait Time > 60)."

/-- The WARNING message f-string of the contention scan. -/
def warnMsg (name : String) : String :=
  "CONTENTION WARNING: Resource \x27" ++ name ++ "\x27 wait time exceeds 30 units."

/-- The mocked-deadlock message f-string. -/
def deadlockMsg (r1 r2 : String) : String :=
  "DEADLOCK (MOCKED): Circular wait detected between " ++ r1 ++ " and " ++ r2 ++ "."

/-- The literal `deadlock_pairs` list of `analyze_system_state`. -/
def deadlock_pairs : List (String × String) :=
  [("Lock-A (UserDB)", "Lock-X (Cache_Write)"),
   ("Socket (192.168.1.10:5432)", "Lock-A (UserDB)"),
   ("Pipe-B (Input_Feed)", "Lock-X (Cache_Write)")]

/-- Step 3 of `analyze_system_state`: the `for resource_name, data in
live_data[contention].items()` loop, carried out on the association list in
insertion order with the running `current_event` accumulator.  A record with
no `Total_Wait_Time` key makes the lookup `data[...]` raise, modelled as
`Except.error`.  `t` is the already-incremented `total_seconds_monitored`. -/
def scanContention (t : ℚ) : List (String × Option Int) → Option Event → Except String (Option Event)
  | [], cur => Except.ok cur
  | (name, w?) :: rest, cur =>
    match w? with
    | none => Except.error "KeyError: Total_Wait_Time"
    | some w =>
      let cur2 :=
        if 60 < w then
          match cur with
          | none => some (Event.mk t "ERROR" (errMsg name))
          | some e => if e.type ≠ "ERROR" then some (Event.mk t "ERROR" (errMsg name)) else some e
        else if 30 < w then
          match cur with
          | none => some (Event.mk t "WARNING" (warnMsg name))
          | some e => some e
        else cur
      scanContention t rest cur2

/-- `RealTimeAnalyzer.analyze_system_state`.  The internal call to
`monitor_resource_contention_mock` is represented by the `sampleResult`
argument (`Except.error` when the sampler raises); the two uses of the
`random` module are represented by `roll` (the outcome of
`random.random() > 0.5`) and `choice` (the index drawn by
`random.choice(deadlock_pairs)`, reduced mod the list length).  The result
is the state of the Python object when the call finishes — also when it
finishes by raising, since the mutations made before the raise persist —
paired with the returned event or the exception. -/
def analyze_system_state (a : RealTimeAnalyzer) (sampleResult : Except Unit Sample)
    (roll : Bool) (choice : ℕ) : RealTimeAnalyzer × Except String (Option Event) :=
  let t := a.total_seconds_monitored + 1
  let a1 := { a with total_seconds_monitored := t }
  match sampleResult with
  | Except.error _ => (a1, Except.error "SamplerError")
  | Except.ok sample =>
    let a2 := { a1 with last_contention_data := sample.contention }
    let newCum := a2.cumulative_transferred + sample.throughput_rate
    let a3 := { a2 with
      cumulative_transferred := newCum
      throughput_time := a2.throughput_time ++ [t]
      throughput_cumulative := a2.throughput_cumulative ++ [newCum] }
    match scanContention t sample.contention none with
    | Except.error msg => (a3, Except.error msg)
    | Except.ok scanned =>
      let withInjection :=
        if 15 < t ∧ t < 17 ∧ roll = true ∧ scanned = none then
          let pair := deadlock_pairs.getD (choice % deadlock_pairs.length) ("", "")
          some (Event.mk t "ERROR" (deadlockMsg pair.1 pair.2))
        else scanned
      match withInjection with
      | some e => ({ a3 with events := a3.events ++ [e] }, Except.ok (some e))
      | none => (a3, Except.ok none)

/-- The list comprehension of `get_contention_data`: collect the
`Total_Wait_Time` of every record, raising on a missing key. -/
def collectWaitTicks : List (String × Option Int) → Except String (List Int)
  | [] => Except.ok []
  | (_, none) :: _ => Except.error "KeyError: Total_Wait_Time"
  | (_, some w) :: rest =>
    match collectWaitTicks rest with
    | Except.error msg => Except.error msg
    | Except.ok ws => Except.ok (w :: ws)

/-- `RealTimeAnalyzer.get_contention_data`: the `Names` and `Wait_Ticks`
lists derived from `last_contention_data` in insertion order. -/
def get_contention_data (a : RealTimeAnalyzer) : Except String (List String × List Int) :=
  match collectWaitTicks a.last_contention_data with
  | Except.error msg => Except.error msg
  | Except.ok ws => Except.ok (a.last_contention_data.map Prod.fst, ws)

/-- The per-iteration inputs of one poller cycle: the sampler outcome and the
two random draws consumed by `analyze_system_state`. -/
structure StepInput where
  sample : Except Unit Sample
  roll : Bool
  choice : ℕ

/-- Iterated `analyze_system_state` calls, keeping only the evolving state. -/
def runAnalyzer (a : RealTimeAnalyzer) : List StepInput → RealTimeAnalyzer
  | [] => a
  | i :: rest => runAnalyzer (analyze_system_state a i.sample i.roll i.choice).1 rest

/-- `MonitorWorker.run`: each iteration calls `analyze_system_state`
(discarding its return value), takes `events[-1:]` and, when that slice is
nonempty, invokes the callback on its single element.  An exception escaping
`analyze_system_state` propagates out of `run` and terminates the thread, so
the model stops consuming inputs there.  The result is the final analyzer
state and the list of callback invocations in order. -/
def workerRun (a : RealTimeAnalyzer) : List StepInput → RealTimeAnalyzer × List Event
  | [] => (a, [])
  | i :: rest =>
    let step := analyze_system_state a i.sample i.roll i.choice
    match step.2 with
    | Except.error _ => (step.1, [])
    | Except.ok _ =>
      let delivered :=
        match step.1.events.getLast? with
        | some e => [e]
        | none => []
      let next := workerRun step.1 rest
      (next.1, delivered ++ next.2)

/-- The events actually produced (returned) by the successive
`analyze_system_state` calls of a run, in order. -/
def producedEvents (a : RealTimeAnalyzer) : List StepInput → List Event
  | [] => []
  | i :: rest =>
    let step := analyze_system_state a i.sample i.roll i.choice
    match step.2 with
    | Except.ok (some e) => e :: producedEvents step.1 rest
    | _ => producedEvents step.1 rest

/-- Decides whether every iteration of a run produces an event. -/
def allProduce (a : RealTimeAnalyzer) : List StepInput → Bool
  | [] => true
  | i :: rest =>
    let step := analyze_system_state a i.sample i.roll i.choice
    match step.2 with
    | Except.ok (some _) => allProduce step.1 rest
    | _ => false

/-- Decides whether every iteration of a run has a successful sampler. -/
def allOk (l : List StepInput) : Bool :=
  l.all (fun i => match i.sample with | Except.ok _ => true | Except.error _ => false)

/-- The throughput increment carried by one iteration input. -/
def stepRate (i : StepInput) : ℚ :=
  match i.sample with
  | Except.ok s => s.throughput_rate
  | Except.error _ => 0

/-- Running prefix sums starting from an accumulator. -/
def prefixSums (acc : ℚ) : List ℚ → List ℚ
  | [] => []
  | x :: xs => (acc + x) :: prefixSums (acc + x) xs

/-- The tick stamps appended to `throughput_data[Time]` by `n` calls starting
from elapsed time `t`. -/
def timesFrom (t : ℚ) : ℕ → List ℚ
  | 0 => []
  | Nat.succ n => (t + 1) :: timesFrom (t + 1) n

/-- A contention list is well formed when every record has its
`Total_Wait_Time` key. -/
def wellFormed (l : List (String × Option Int)) : Bool :=
  l.all (fun p => p.2.isSome)

/-! ### Discrete-time model of the poller loop and its sleep

`MonitorWorker.run` checks `stop_event.is_set()` at the top of each
iteration, performs the analysis-and-deliver body, then calls
`time.sleep(polling_interval_sec)`.  `time.sleep` does not observe
`stop_event`, so a stop request arriving during the sleep is only seen at
the top of the next iteration.  The model uses discrete time with the body
taking zero time: `t` is the current time, `stopTime` the instant `stop()`
sets the flag, `fuel` bounds the number of iterations considered.  The
result is the time at which `run` returns (when `join()` unblocks) and the
times of the callback invocations, or `none` when the fuel runs out before
the stop request is observed. -/

def runLoopCode (interval stopTime : ℕ) : ℕ → ℕ → Option (ℕ × List ℕ)
  | 0, _ => none
  | Nat.succ fuel, t =>
    if stopTime ≤ t then some (t, [])
    else
      match runLoopCode interval stopTime fuel (t + interval) with
      | none => none
      | some (ex, ts) => some (ex, t :: ts)

/-- Modelled from the spec: the loop §4.2 of the spec, whose step 4 sleeps
with an interruptible wait (`stop_event.wait`-style), so a stop request
arriving strictly inside a sleep wakes the loop at `stopTime`, where the
flag is then observed and the loop exits. -/
def runLoopInterruptible (interval stopTime : ℕ) : ℕ → ℕ → Option (ℕ × List ℕ)
  | 0, _ => none
  | Nat.succ fuel, t =>
    if stopTime ≤ t then some (t, [])
    else if stopTime ≤ t + interval then some (stopTime, [t])
    else
      match runLoopInterruptible interval stopTime fuel (t + interval) with
      | none => none
      | some (ex, ts) => some (ex, t :: ts)

/-! ### Step lemmas about one `analyze_system_state` call -/

theorem analyze_total (a : RealTimeAnalyzer) (inp : Except Unit Sample) (roll : Bool)
    (choice : ℕ) :
    (analyze_system_state a inp roll choice).1.total_seconds_monitored =
      a.total_seconds_monitored + 1 := by
  cases inp with
  | error e => rfl
  | ok s =>
    simp only [analyze_system_state]
    split
    · rfl
    · split <;> rfl

theorem analyze_err_state (a : RealTimeAnalyzer) (u : Unit) (roll : Bool) (choice : ℕ) :
    analyze_system_state a (Except.error u) roll choice =
      ({ a with total_seconds_monitored := a.total_seconds_monitored + 1 },
        Except.error "SamplerError") := rfl

theorem analyze_ok_cumulative (a : RealTimeAnalyzer) (s : Sample) (roll : Bool) (choice : ℕ) :
    (analyze_system_state a (Except.ok s) roll choice).1.cumulative_transferred =
      a.cumulative_transferred + s.throughput_rate := by
  simp only [analyze_system_state]
  split
  · rfl
  · split <;> rfl

theorem analyze_ok_time_series (a : RealTimeAnalyzer) (s : Sample) (roll : Bool) (choice : ℕ) :
    (analyze_system_state a (Except.ok s) roll choice).1.throughput_time =
      a.throughput_time ++ [a.total_seconds_monitored + 1] := by
  simp only [analyze_system_state]
  split
  · rfl
  · split <;> rfl

theorem analyze_ok_cum_series (a : RealTimeAnalyzer) (s : Sample) (roll : Bool) (choice : ℕ) :
    (analyze_system_state a (Except.ok s) roll choice).1.throughput_cumulative =
      a.throughput_cumulative ++ [a.cumulative_transferred + s.throughput_rate] := by
  simp only [analyze_system_state]
  split
  · rfl
  · split <;> rfl

theorem analyze_ok_last_contention (a : RealTimeAnalyzer) (s : Sample) (roll : Bool)
    (choice : ℕ) :
    (analyze_system_state a (Except.ok s) roll choice).1.last_contention_data =
      s.contention := by
  simp only [analyze_system_state]
  split
  · rfl
  · split <;> rfl

theorem analyze_events_spec (a : RealTimeAnalyzer) (inp : Except Unit Sample) (roll : Bool)
    (choice : ℕ) :
    ∃ tl, (analyze_system_state a inp roll choice).1.events = a.events ++ tl ∧
      tl.length ≤ 1 ∧
      (∀ e, (analyze_system_state a inp roll choice).2 = Except.ok (some e) → tl = [e]) ∧
      (∀ e ∈ tl, (analyze_system_state a inp roll choice).2 = Except.ok (some e)) := by
  cases inp with
  | error u => refine ⟨[], ?_, ?_, ?_, ?_⟩ <;> simp [analyze_err_state]
  | ok s =>
    simp only [analyze_system_state]
    split
    · refine ⟨[], ?_, ?_, ?_, ?_⟩ <;> simp
    · split
      · rename_i e heq
        refine ⟨[e], by simp, by simp, ?_, by simp⟩
        intro e2 h2
        simp only [Except.ok.injEq, Option.some.injEq] at h2
        simp [h2]
      · refine ⟨[], ?_, ?_, ?_, ?_⟩ <;> simp

theorem analyze_result_appended (a : RealTimeAnalyzer) (inp : Except Unit Sample) (roll : Bool)
    (choice : ℕ) (e : Event)
    (h : (analyze_system_state a inp roll choice).2 = Except.ok (some e)) :
    (analyze_system_state a inp roll choice).1.events = a.events ++ [e] := by
  obtain ⟨tl, h1, _, h3, _⟩ := analyze_events_spec a inp roll choice
  rw [h1, h3 e h]

/-! ### Lemmas about the contention scan -/

/-- An accumulated ERROR candidate is never displaced by later entries. -/
theorem scan_err (t : ℚ) (l : List (String × Option Int)) (e : Event)
    (he : e.type = "ERROR") (hl : wellFormed l = true) :
    scanContention t l (some e) = Except.ok (some e) := by
  induction l with
  | nil => rfl
  | cons p rest ih =>
    obtain ⟨name, w?⟩ := p
    simp only [wellFormed, List.all_cons, Bool.and_eq_true] at hl
    obtain ⟨hw, hrest⟩ := hl
    cases w? with
    | none => simp at hw
    | some w =>
      simp only [scanContention]
      split
      · simp only [he, ne_eq, not_true_eq_false, if_false, reduceIte]
        exact ih hrest
      · split
        · exact ih hrest
        · exact ih hrest

/-- An accumulated non-ERROR candidate survives unless a later entry breaches
the ERROR threshold, in which case the first such entry wins. -/
theorem scan_nonerr (t : ℚ) (l : List (String × Option Int)) (e : Event)
    (he : ¬ e.type = "ERROR") (hl : wellFormed l = true) :
    scanContention t l (some e) =
      Except.ok (match l.find? (fun p => decide (60 < p.2.getD 0)) with
        | some p => some (Event.mk t "ERROR" (errMsg p.1))
        | none => some e) := by
  induction l with
  | nil => rfl
  | cons p rest ih =>
    obtain ⟨name, w?⟩ := p
    simp only [wellFormed, List.all_cons, Bool.and_eq_true] at hl
    obtain ⟨hw, hrest⟩ := hl
    cases w? with
    | none => simp at hw
    | some w =>
      by_cases h60 : 60 < w
      · rw [List.find?_cons_of_pos _ (by simp [h60])]
        simp only [scanContention, if_pos h60]
        rw [if_pos he]
        exact scan_err t rest (Event.mk t "ERROR" (errMsg name)) rfl hrest
      · rw [List.find?_cons_of_neg _ (by simp [h60])]
        by_cases h30 : 30 < w
        · simp only [scanContention, if_neg h60, if_pos h30]
          exact ih hrest
        · simp only [scanContention, if_neg h60, if_neg h30]
          exact ih hrest

/-- Full characterization of the scan from an empty accumulator: the first
entry above the ERROR threshold wins outright, else the first entry above the
WARNING threshold, else no event. -/
theorem scan_none (t : ℚ) (l : List (String × Option Int)) (hl : wellFormed l = true) :
    scanContention t l none =
      Except.ok (match l.find? (fun p => decide (60 < p.2.getD 0)) with
        | some p => some (Event.mk t "ERROR" (errMsg p.1))
        | none =>
          match l.find? (fun p => decide (30 < p.2.getD 0)) with
          | some p => some (Event.mk t "WARNING" (warnMsg p.1))
          | none => none) := by
  induction l with
  | nil => rfl
  | cons p rest ih =>
    obtain ⟨name, w?⟩ := p
    simp only [wellFormed, List.all_cons, Bool.and_eq_true] at hl
    obtain ⟨hw, hrest⟩ := hl
    cases w? with
    | none => simp at hw
    | some w =>
      by_cases h60 : 60 < w
      · rw [List.find?_cons_of_pos _ (by simp [h60])]
        simp only [scanContention, if_pos h60]
        exact scan_err t rest (Event.mk t "ERROR" (errMsg name)) rfl hrest
      · rw [List.find?_cons_of_neg _ (by simp [h60])]
        by_cases h30 : 30 < w
        · rw [List.find?_cons_of_pos _ (by simp [h30])]
          simp only [scanContention, if_neg h60, if_pos h30]
          rw [scan_nonerr t rest (Event.mk t "WARNING" (warnMsg name)) (by simp) hrest]
        · rw [List.find?_cons_of_neg _ (by simp [h30])]
          simp only [scanContention, if_neg h60, if_neg h30]
          exact ih hrest

/-- Any property holding of every event the scan can construct at time `t`,
and of the incoming accumulator, holds of the scan result. -/
theorem scan_preserves (t : ℚ) (P : Event → Prop)
    (hErr : ∀ name, P (Event.mk t "ERROR" (errMsg name)))
    (hWarn : ∀ name, P (Event.mk t "WARNING" (warnMsg name))) :
    ∀ (l : List (String × Option Int)) (cur : Option Event) (e : Event),
      (∀ e0, cur = some e0 → P e0) →
      scanContention t l cur = Except.ok (some e) → P e := by
  intro l
  induction l with
  | nil =>
    intro cur e hcur h
    simp only [scanContention, Except.ok.injEq] at h
    exact hcur e h
  | cons p rest ih =>
    intro cur e hcur h
    obtain ⟨name, w?⟩ := p
    cases w? with
    | none => simp [scanContention] at h
    | some w =>
      simp only [scanContention] at h
      refine ih _ e ?_ h
      intro e0 he0
      by_cases h60 : 60 < w
      · rw [if_pos h60] at he0
        cases cur with
        | none =>
          simp only [Option.some.injEq] at he0
          exact he0 ▸ hErr name
        | some ec =>
          dsimp only at he0
          by_cases hty : ec.type = "ERROR"
          · rw [if_neg (not_not_intro hty)] at he0
            simp only [Option.some.injEq] at he0
            exact he0 ▸ hcur ec rfl
          · rw [if_pos hty] at he0
            simp only [Option.some.injEq] at he0
            exact he0 ▸ hErr name
      · rw [if_neg h60] at he0
        by_cases h30 : 30 < w
        · rw [if_pos h30] at he0
          cases cur with
          | none =>
            simp only [Option.some.injEq] at he0
            exact he0 ▸ hWarn name
          | some ec =>
            dsimp only at he0
            simp only [Option.some.injEq] at he0
            exact he0 ▸ hcur ec rfl
        · rw [if_neg h30] at he0
          exact hcur e0 he0

/-- On a well-formed contention list the scan never raises. -/
theorem scan_wf_ok (t : ℚ) (l : List (String × Option Int)) :
    ∀ cur, wellFormed l = true → ∃ r, scanContention t l cur = Except.ok r := by
  induction l with
  | nil => exact fun cur _ => ⟨cur, rfl⟩
  | cons p rest ih =>
    intro cur hl
    obtain ⟨name, w?⟩ := p
    simp only [wellFormed, List.all_cons, Bool.and_eq_true] at hl
    obtain ⟨hw, hrest⟩ := hl
    cases w? with
    | none => simp at hw
    | some w =>
      simp only [scanContention]
      exact ih _ hrest

/-- Entries whose wait time is negative satisfy neither threshold, so the
scan gives the same result whether or not they are present. -/
theorem scan_filter_nonneg (t : ℚ) (l : List (String × Option Int)) :
    ∀ cur, wellFormed l = true →
      scanContention t l cur =
        scanContention t (l.filter (fun p => decide ((0 : Int) ≤ p.2.getD 0))) cur := by
  induction l with
  | nil => intro cur _; rfl
  | cons p rest ih =>
    intro cur hl
    obtain ⟨name, w?⟩ := p
    simp only [wellFormed, List.all_cons, Bool.and_eq_true] at hl
    obtain ⟨hw, hrest⟩ := hl
    cases w? with
    | none => simp at hw
    | some w =>
      by_cases hneg : (0 : Int) ≤ w
      · rw [List.filter_cons_of_pos (by simp [hneg])]
        simp only [scanContention]
        exact ih _ hrest
      · rw [List.filter_cons_of_neg (by simp [hneg])]
        have h60 : ¬ 60 < w := by omega
        have h30 : ¬ 30 < w := by omega
        simp only [scanContention, if_neg h60, if_neg h30]
        exact ih cur hrest

/-- On a well-formed list the wait-tick collection of `get_contention_data`
returns exactly the recorded values in order. -/
theorem collect_wf (l : List (String × Option Int)) (hl : wellFormed l = true) :
    collectWaitTicks l = Except.ok (l.map (fun p => p.2.getD 0)) := by
  induction l with
  | nil => rfl
  | cons p rest ih =>
    obtain ⟨name, w?⟩ := p
    simp only [wellFormed, List.all_cons, Bool.and_eq_true] at hl
    obtain ⟨hw, hrest⟩ := hl
    cases w? with
    | none => simp at hw
    | some w =>
      simp only [collectWaitTicks, ih hrest, List.map_cons]
      rfl

/-- Every event a call can return is one of the three message shapes the
source constructs, always stamped with the post-increment tick. -/
theorem analyze_event_inv (a : RealTimeAnalyzer) (inp : Except Unit Sample) (roll : Bool)
    (choice : ℕ) (P : Event → Prop)
    (hErr : ∀ name, P (Event.mk (a.total_seconds_monitored + 1) "ERROR" (errMsg name)))
    (hWarn : ∀ name, P (Event.mk (a.total_seconds_monitored + 1) "WARNING" (warnMsg name)))
    (hInj : ∀ r1 r2, P (Event.mk (a.total_seconds_monitored + 1) "ERROR" (deadlockMsg r1 r2))) :
    ∀ ev, (analyze_system_state a inp roll choice).2 = Except.ok (some ev) → P ev := by
  intro ev h
  cases inp with
  | error u => simp [analyze_err_state] at h
  | ok s =>
    simp only [analyze_system_state] at h
    split at h
    · simp at h
    · rename_i scanned hscan
      split at h
      · rename_i e2 heq
        dsimp only at h
        simp only [Except.ok.injEq, Option.some.injEq] at h
        rw [← h]
        split at heq
        · simp only [Option.some.injEq] at heq
          exact heq ▸ hInj _ _
        · rw [heq] at hscan
          exact scan_preserves (a.total_seconds_monitored + 1) P hErr hWarn s.contention none
            e2 (by simp) hscan
      · dsimp only at h
        simp at h

/-! ### Run-level lemmas -/

theorem runAnalyzer_append (l1 l2 : List StepInput) :
    ∀ a, runAnalyzer a (l1 ++ l2) = runAnalyzer (runAnalyzer a l1) l2 := by
  induction l1 with
  | nil => intro a; rfl
  | cons i rest ih =>
    intro a
    simp only [List.cons_append, runAnalyzer]
    exact ih _

theorem mem_of_mem_getLast? {α : Type} {l : List α} {x : α} (h : x ∈ l.getLast?) : x ∈ l := by
  obtain ⟨hne, hx⟩ := List.mem_getLast?_eq_getLast h
  exact hx ▸ List.getLast_mem hne

/-- Evolution of the event log along a run: it only grows at the tail, by at
most one entry per call, every new entry is stamped with the tick of its
call, and the log stays sorted by timestamp. -/
theorem run_log_invariant (l : List StepInput) :
    ∀ a : RealTimeAnalyzer,
      (∀ e ∈ a.events, e.time ≤ a.total_seconds_monitored) →
      List.Chain' (fun x y => x ≤ y) (a.events.map Event.time) →
      (∀ e ∈ (runAnalyzer a l).events,
          e.time ≤ (runAnalyzer a l).total_seconds_monitored) ∧
        List.Chain' (fun x y => x ≤ y) ((runAnalyzer a l).events.map Event.time) ∧
        (runAnalyzer a l).events.length ≤ a.events.length + l.length ∧
        ∃ tl, (runAnalyzer a l).events = a.events ++ tl := by
  induction l with
  | nil =>
    intro a hbound hchain
    exact ⟨hbound, hchain, by simp [runAnalyzer], [], by simp [runAnalyzer]⟩
  | cons i rest ih =>
    intro a hbound hchain
    obtain ⟨tl0, h1, h2, _h3, h4⟩ := analyze_events_spec a i.sample i.roll i.choice
    set a1 := (analyze_system_state a i.sample i.roll i.choice).1 with ha1
    have hrun : runAnalyzer a (i :: rest) = runAnalyzer a1 rest := rfl
    rw [hrun]
    have htot : a1.total_seconds_monitored = a.total_seconds_monitored + 1 :=
      analyze_total a i.sample i.roll i.choice
    have htl0 : ∀ e ∈ tl0, e.time = a.total_seconds_monitored + 1 := by
      intro e he
      exact analyze_event_inv a i.sample i.roll i.choice
        (fun ev => ev.time = a.total_seconds_monitored + 1)
        (fun _ => rfl) (fun _ => rfl) (fun _ _ => rfl) e (h4 e he)
    have hbound1 : ∀ e ∈ a1.events, e.time ≤ a1.total_seconds_monitored := by
      intro e he
      rw [h1, List.mem_append] at he
      rw [htot]
      rcases he with he | he
      · linarith [hbound e he]
      · rw [htl0 e he]
    have hchain1 : List.Chain' (fun x y => x ≤ y) (a1.events.map Event.time) := by
      rw [h1, List.map_append, List.chain'_append]
      refine ⟨hchain, ?_, ?_⟩
      · cases tl0 with
        | nil => simp
        | cons e0 tl0' =>
          have : tl0' = [] := by
            simp only [List.length_cons] at h2
            exact List.length_eq_zero.mp (by omega)
          subst this
          simp
      · intro x hx y hy
        have hxmem : x ∈ a.events.map Event.time := mem_of_mem_getLast? hx
        obtain ⟨ex, hex, hxval⟩ := List.mem_map.mp hxmem
        cases tl0 with
        | nil => simp at hy
        | cons e0 tl0' =>
          simp only [List.map_cons, List.head?_cons, Option.mem_def, Option.some.injEq] at hy
          rw [← hy, htl0 e0 (by simp), ← hxval]
          linarith [hbound ex hex]
    obtain ⟨hb, hc, hlen, tl1, htl1⟩ := ih a1 hbound1 hchain1
    refine ⟨hb, hc, ?_, tl0 ++ tl1, ?_⟩
    · calc (runAnalyzer a1 rest).events.length ≤ a1.events.length + rest.length := hlen
        _ = a.events.length + tl0.length + rest.length := by rw [h1, List.length_append]
        _ ≤ a.events.length + (i :: rest).length := by simp [List.length_cons]; omega
    · rw [htl1, h1, List.append_assoc]

/-- Evolution of the cumulative metrics along a run of successful samples. -/
theorem run_metrics (l : List StepInput) :
    ∀ a : RealTimeAnalyzer, allOk l = true →
      (runAnalyzer a l).total_seconds_monitored =
          a.total_seconds_monitored + l.length ∧
        (runAnalyzer a l).cumulative_transferred =
          a.cumulative_transferred + (l.map stepRate).sum ∧
        (runAnalyzer a l).throughput_time =
          a.throughput_time ++ timesFrom a.total_seconds_monitored l.length ∧
        (runAnalyzer a l).throughput_cumulative =
          a.throughput_cumulative ++ prefixSums a.cumulative_transferred (l.map stepRate) := by
  induction l with
  | nil =>
    intro a _
    refine ⟨?_, ?_, ?_, ?_⟩ <;> simp [runAnalyzer, timesFrom, prefixSums]
  | cons i rest ih =>
    intro a hok
    simp only [allOk, List.all_cons, Bool.and_eq_true] at hok
    obtain ⟨hi, hrest⟩ := hok
    cases hs : i.sample with
    | error u => rw [hs] at hi; simp at hi
    | ok s =>
      have hrate : stepRate i = s.throughput_rate := by simp [stepRate, hs]
      set a1 := (analyze_system_state a i.sample i.roll i.choice).1 with ha1
      have hrun : runAnalyzer a (i :: rest) = runAnalyzer a1 rest := rfl
      have htot : a1.total_seconds_monitored = a.total_seconds_monitored + 1 :=
        analyze_total a i.sample i.roll i.choice
      have hcum : a1.cumulative_transferred =
          a.cumulative_transferred + s.throughput_rate := by
        rw [ha1, hs]; exact analyze_ok_cumulative a s i.roll i.choice
      have htt : a1.throughput_time =
          a.throughput_time ++ [a.total_seconds_monitored + 1] := by
        rw [ha1, hs]; exact analyze_ok_time_series a s i.roll i.choice
      have htc : a1.throughput_cumulative =
          a.throughput_cumulative ++ [a.cumulative_transferred + s.throughput_rate] := by
        rw [ha1, hs]; exact analyze_ok_cum_series a s i.roll i.choice
      obtain ⟨ih1, ih2, ih3, ih4⟩ := ih a1 hrest
      rw [hrun]
      refine ⟨?_, ?_, ?_, ?_⟩
      · rw [ih1, htot]
        push_cast [List.length_cons]
        ring
      · rw [ih2, hcum, List.map_cons, List.sum_cons, hrate]
        ring
      · rw [ih3, htt, htot, List.length_cons]
        simp only [timesFrom, List.append_assoc, List.cons_append, List.nil_append]
      · rw [ih4, htc, hcum, List.map_cons, hrate]
        simp only [prefixSums, List.append_assoc, List.cons_append, List.nil_append]

/-- The tick stamps of `n` calls starting at `t` are `t + 1, …, t + n`. -/
theorem timesFrom_eq (n : ℕ) :
    ∀ t : ℚ, timesFrom t n = (List.range n).map (fun i : ℕ => t + (i : ℚ) + 1) := by
  induction n with
  | zero => intro t; rfl
  | succ n ih =>
    intro t
    rw [List.range_succ_eq_map, List.map_cons, List.map_map]
    simp only [timesFrom]
    rw [ih (t + 1)]
    refine congrArg₂ List.cons (by push_cast; ring) ?_
    refine List.map_congr_left ?_
    intro i _
    simp only [Function.comp_apply, Nat.succ_eq_add_one]
    push_cast
    ring

/-- Prefix sums of nonnegative values grow monotonically from the seed. -/
theorem prefixSums_chain (l : List ℚ) :
    ∀ x : ℚ, (∀ y ∈ l, 0 ≤ y) →
      List.Chain' (fun u v => u ≤ v) (x :: prefixSums x l) := by
  induction l with
  | nil => intro x _; simp [prefixSums]
  | cons y ys ih =>
    intro x hpos
    simp only [prefixSums]
    rw [List.chain'_cons]
    refine ⟨le_add_of_nonneg_right (hpos y (by simp)), ?_⟩
    exact ih (x + y) (fun z hz => hpos z (by simp [hz]))

/-- The worker delivers, in order, exactly the produced events, provided
every iteration produces one. -/
theorem worker_delivers_produced (l : List StepInput) :
    ∀ a : RealTimeAnalyzer, allProduce a l = true →
      (workerRun a l).2 = producedEvents a l := by
  induction l with
  | nil => intro a _; rfl
  | cons i rest ih =>
    intro a h
    simp only [allProduce] at h
    split at h
    · rename_i e heq
      have happ := analyze_result_appended a i.sample i.roll i.choice e heq
      simp only [workerRun, producedEvents, heq, happ, List.getLast?_concat,
        List.singleton_append]
      exact congrArg (List.cons e) (ih _ h)
    · simp at h

/-- The uninterruptible loop still observes a stop request within one
interval of it: its exit time lies in `[stopTime, stopTime + interval)`,
and every callback happens strictly before the exit. -/
theorem runLoopCode_exit_bound (interval stopTime : ℕ) (hpos : 0 < interval) :
    ∀ (fuel t : ℕ) (ex : ℕ) (ts : List ℕ), t ≤ stopTime →
      runLoopCode interval stopTime fuel t = some (ex, ts) →
      stopTime ≤ ex ∧ ex < stopTime + interval ∧ ∀ u ∈ ts, u < ex := by
  intro fuel
  induction fuel with
  | zero => intro t ex ts _ h; simp [runLoopCode] at h
  | succ fuel ih =>
    intro t ex ts hle h
    simp only [runLoopCode] at h
    by_cases hstop : stopTime ≤ t
    · rw [if_pos hstop] at h
      simp only [Option.some.injEq, Prod.mk.injEq] at h
      obtain ⟨rfl, rfl⟩ := h
      exact ⟨hstop, by omega, by simp⟩
    · rw [if_neg hstop] at h
      by_cases hnext : stopTime ≤ t + interval
      · cases fuel with
        | zero => simp [runLoopCode] at h
        | succ fuel2 =>
          simp only [runLoopCode, if_pos hnext] at h
          simp only [Option.some.injEq, Prod.mk.injEq] at h
          obtain ⟨rfl, rfl⟩ := h
          refine ⟨hnext, by omega, ?_⟩
          intro u hu
          simp only [List.mem_singleton] at hu
          omega
      · cases hrec : runLoopCode interval stopTime fuel (t + interval) with
        | none => rw [hrec] at h; simp at h
        | some p =>
          obtain ⟨ex2, ts2⟩ := p
          rw [hrec] at h
          simp only [Option.some.injEq, Prod.mk.injEq] at h
          obtain ⟨he, hts⟩ := h
          obtain ⟨hb1, hb2, hb3⟩ := ih (t + interval) ex2 ts2 (by omega) hrec
          refine ⟨he ▸ hb1, he ▸ hb2, ?_⟩
          intro u hu
          rw [← hts] at hu
          simp only [List.mem_cons] at hu
          rcases hu with rfl | hu
          · omega
          · exact he ▸ hb3 u hu

/-! ### Claim theorems -/

/-- C2: with the fault injector inactive, `analyze_system_state` returns an
ERROR event naming the first contention entry with wait ticks above 60 if one
exists, else a WARNING event naming the first entry above 30 if one exists,
else no contention event; so a later ERROR-level entry displaces an earlier
WARNING candidate but never an earlier ERROR candidate. -/
theorem contention_first_error_else_first_warning (a : RealTimeAnalyzer) (s : Sample)
    (choice : ℕ) (h : wellFormed s.contention = true) :
    (analyze_system_state a (Except.ok s) false choice).2 =
      Except.ok
        (match s.contention.find? (fun p => decide ((60 : Int) < p.2.getD 0)) with
          | some p =>
            some (Event.mk (a.total_seconds_monitored + 1) "ERROR" (errMsg p.1))
          | none =>
            match s.contention.find? (fun p => decide ((30 : Int) < p.2.getD 0)) with
            | some p =>
              some (Event.mk (a.total_seconds_monitored + 1) "WARNING" (warnMsg p.1))
            | none => none) := by
  have hs := scan_none (a.total_seconds_monitored + 1) s.contention h
  cases hf60 : s.contention.find? (fun p => decide ((60 : Int) < p.2.getD 0)) with
  | some p =>
    rw [hf60] at hs
    simp [analyze_system_state, hs]
  | none =>
    rw [hf60] at hs
    cases hf30 : s.contention.find? (fun p => decide ((30 : Int) < p.2.getD 0)) with
    | some p =>
      rw [hf30] at hs
      simp [analyze_system_state, hs]
    | none =>
      rw [hf30] at hs
      simp [analyze_system_state, hs]

/-- Witness for C2: a sample whose second entry is the first above the ERROR
threshold yields the ERROR event naming it, although a WARNING candidate came
first. -/
theorem contention_first_error_witness :
    wellFormed ([("A", some 40), ("B", some 70), ("C", some 80)] :
        List (String × Option Int)) = true ∧
    (analyze_system_state initAnalyzer
        (Except.ok ⟨[("A", some 40), ("B", some 70), ("C", some 80)], 0⟩) false 0).2 =
      Except.ok (some (Event.mk 1 "ERROR" (errMsg "B"))) := by
  refine ⟨by decide, ?_⟩
  have h := contention_first_error_else_first_warning initAnalyzer
    ⟨[("A", some 40), ("B", some 70), ("C", some 80)], 0⟩ 0 (by decide)
  rw [h]
  with_unfolding_all decide

/-- C3: after `n ≥ 1` calls on successfully sampled inputs with nonnegative
throughput increments, the elapsed time equals `n` (tick size 1), the
cumulative transfer equals the sum of the increments and is non-decreasing
across calls, and the throughput series is exactly the points
`(i, prefix sum of the first i increments)` for `i = 1..n`. -/
theorem metrics_after_n_calls (l : List StepInput)
    (_hn : 1 ≤ l.length) (hok : allOk l = true)
    (hpos : (l.all fun i => decide (0 ≤ stepRate i)) = true) :
    (runAnalyzer initAnalyzer l).total_seconds_monitored = (l.length : ℚ) ∧
    (runAnalyzer initAnalyzer l).cumulative_transferred = (l.map stepRate).sum ∧
    List.Chain' (fun u v => u ≤ v)
      ((0 : ℚ) :: (runAnalyzer initAnalyzer l).throughput_cumulative) ∧
    (runAnalyzer initAnalyzer l).throughput_time =
      (List.range l.length).map (fun i : ℕ => ((i : ℚ) + 1)) ∧
    (runAnalyzer initAnalyzer l).throughput_cumulative =
      prefixSums 0 (l.map stepRate) := by
  obtain ⟨h1, h2, h3, h4⟩ := run_metrics l initAnalyzer hok
  have hrates : ∀ y ∈ l.map stepRate, (0 : ℚ) ≤ y := by
    intro y hy
    obtain ⟨i, hi, hyi⟩ := List.mem_map.mp hy
    exact hyi ▸ of_decide_eq_true (List.all_eq_true.mp hpos i hi)
  refine ⟨?_, ?_, ?_, ?_, ?_⟩
  · rw [h1]; simp [initAnalyzer]
  · rw [h2]; simp [initAnalyzer]
  · rw [h4]
    simp only [initAnalyzer, List.nil_append]
    exact prefixSums_chain (l.map stepRate) 0 hrates
  · rw [h3]
    simp only [initAnalyzer, List.nil_append]
    rw [timesFrom_eq]
    refine List.map_congr_left ?_
    intro i _
    ring
  · rw [h4]; simp [initAnalyzer]

/-- Witness for C3: one call with increment 7 gives elapsed time 1,
cumulative transfer 7 and series point `(1, 7)`. -/
theorem metrics_after_n_calls_witness :
    RealTimeAnalyzer.total_seconds_monitored
        (runAnalyzer initAnalyzer [⟨Except.ok ⟨[("R", some 0)], 7⟩, false, 0⟩]) = 1 ∧
    RealTimeAnalyzer.cumulative_transferred
        (runAnalyzer initAnalyzer [⟨Except.ok ⟨[("R", some 0)], 7⟩, false, 0⟩]) = 7 ∧
    RealTimeAnalyzer.throughput_time
        (runAnalyzer initAnalyzer [⟨Except.ok ⟨[("R", some 0)], 7⟩, false, 0⟩]) = [1] ∧
    RealTimeAnalyzer.throughput_cumulative
        (runAnalyzer initAnalyzer [⟨Except.ok ⟨[("R", some 0)], 7⟩, false, 0⟩]) = [7] := by
  have h := metrics_after_n_calls [⟨Except.ok ⟨[("R", some 0)], 7⟩, false, 0⟩]
    (by decide) (by decide) (by with_unfolding_all decide)
  obtain ⟨h1, h2, -, h4, h5⟩ := h
  refine ⟨h1.trans (by norm_num), h2.trans (by with_unfolding_all decide),
    h4.trans (by with_unfolding_all decide), h5.trans (by with_unfolding_all decide)⟩

/-- C4: every call appends at most one entry to the event log, so the log
holds at most `n` entries after `n` calls from a fresh analyzer; the log is
append-only (every earlier log is a prefix of every later one) and its
entries are ordered by non-decreasing timestamp. -/
theorem event_log_append_only_bounded_sorted (l : List StepInput) :
    (∀ (a : RealTimeAnalyzer) (inp : Except Unit Sample) (roll : Bool) (choice : ℕ),
        (analyze_system_state a inp roll choice).1.events.length ≤ a.events.length + 1) ∧
    (runAnalyzer initAnalyzer l).events.length ≤ l.length ∧
    (∀ k, ∃ tl, (runAnalyzer initAnalyzer (l.take k)).events ++ tl =
        (runAnalyzer initAnalyzer l).events) ∧
    List.Chain' (fun u v => u ≤ v)
      ((runAnalyzer initAnalyzer l).events.map Event.time) := by
  have hinit1 : ∀ e ∈ initAnalyzer.events,
      e.time ≤ initAnalyzer.total_seconds_monitored := by simp [initAnalyzer]
  have hinit2 : List.Chain' (fun x y => x ≤ y)
      (initAnalyzer.events.map Event.time) := by simp [initAnalyzer]
  obtain ⟨-, hchain, hlen, -⟩ := run_log_invariant l initAnalyzer hinit1 hinit2
  refine ⟨?_, ?_, ?_, hchain⟩
  · intro a inp roll choice
    obtain ⟨tl, h1, h2, -, -⟩ := analyze_events_spec a inp roll choice
    rw [h1, List.length_append]
    omega
  · simpa [initAnalyzer] using hlen
  · intro k
    have hsplit : runAnalyzer initAnalyzer l =
        runAnalyzer (runAnalyzer initAnalyzer (l.take k)) (l.drop k) := by
      rw [← runAnalyzer_append, List.take_append_drop]
    obtain ⟨hbK, hcK, -, -⟩ := run_log_invariant (l.take k) initAnalyzer hinit1 hinit2
    obtain ⟨-, -, -, tl, htl⟩ :=
      run_log_invariant (l.drop k) (runAnalyzer initAnalyzer (l.take k)) hbK hcK
    exact ⟨tl, by rw [hsplit, htl]⟩

/-- C1 counterexample: two poller iterations, the first producing a WARNING
event, the second producing none.  The event log ends with a single produced
event, yet the consumer callback is invoked twice — the second iteration
re-delivers the stale last log entry instead of delivering nothing. -/
theorem worker_redelivers_stale_event :
    (workerRun initAnalyzer
        [⟨Except.ok ⟨[("R", some 45)], 0⟩, false, 0⟩,
         ⟨Except.ok ⟨[("R", some 0)], 0⟩, false, 0⟩]).2 =
      [Event.mk 1 "WARNING" (warnMsg "R"), Event.mk 1 "WARNING" (warnMsg "R")] ∧
    RealTimeAnalyzer.events
        (workerRun initAnalyzer
          [⟨Except.ok ⟨[("R", some 45)], 0⟩, false, 0⟩,
           ⟨Except.ok ⟨[("R", some 0)], 0⟩, false, 0⟩]).1 =
      [Event.mk 1 "WARNING" (warnMsg "R")] ∧
    producedEvents initAnalyzer
        [⟨Except.ok ⟨[("R", some 45)], 0⟩, false, 0⟩,
         ⟨Except.ok ⟨[("R", some 0)], 0⟩, false, 0⟩] =
      [Event.mk 1 "WARNING" (warnMsg "R")] := by
  with_unfolding_all decide

/-- C1 amended: when every iteration's `analyze_system_state` call produces
an event, the consumer callback is invoked exactly once per iteration with
that event, in production order (the original claim additionally asserted
zero invocations for an event-less iteration, which the code violates by
re-delivering the last log entry). -/
theorem worker_delivery_in_order_when_productive (l : List StepInput)
    (a : RealTimeAnalyzer) (h : allProduce a l = true) :
    (workerRun a l).2 = producedEvents a l :=
  worker_delivers_produced l a h

/-- Witness for the amended C1: two iterations that each produce an event
are delivered exactly once each, in order. -/
theorem worker_delivery_in_order_witness :
    allProduce initAnalyzer
        [⟨Except.ok ⟨[("R", some 45)], 0⟩, false, 0⟩,
         ⟨Except.ok ⟨[("S", some 70)], 0⟩, false, 0⟩] = true ∧
    (workerRun initAnalyzer
        [⟨Except.ok ⟨[("R", some 45)], 0⟩, false, 0⟩,
         ⟨Except.ok ⟨[("S", some 70)], 0⟩, false, 0⟩]).2 =
      producedEvents initAnalyzer
        [⟨Except.ok ⟨[("R", some 45)], 0⟩, false, 0⟩,
         ⟨Except.ok ⟨[("S", some 70)], 0⟩, false, 0⟩] :=
  ⟨by with_unfolding_all decide,
    worker_delivery_in_order_when_productive _ _ (by with_unfolding_all decide)⟩

/-- C5: a synthetic fault event can only appear when the contention scan
produced no event and the elapsed time is strictly inside `(15, 17)`; when it
appears it is an ERROR event at the current tick whose message names a
circular wait between the two members of a pair from `deadlock_pairs`; and a
call whose scan produced an event returns that event, never the injected
one. -/
theorem fault_injection_only_without_contention_event (a : RealTimeAnalyzer) (s : Sample)
    (roll : Bool) (choice : ℕ) :
    (∀ e, scanContention (a.total_seconds_monitored + 1) s.contention none =
        Except.ok (some e) →
      (analyze_system_state a (Except.ok s) roll choice).2 = Except.ok (some e)) ∧
    (scanContention (a.total_seconds_monitored + 1) s.contention none = Except.ok none →
      ∀ ev, (analyze_system_state a (Except.ok s) roll choice).2 = Except.ok (some ev) →
        15 < a.total_seconds_monitored + 1 ∧ a.total_seconds_monitored + 1 < 17 ∧
          roll = true ∧ ev.time = a.total_seconds_monitored + 1 ∧ ev.type = "ERROR" ∧
          ∃ p ∈ deadlock_pairs, ev.message = deadlockMsg p.1 p.2) := by
  constructor
  · intro e he
    simp [analyze_system_state, he]
  · intro hnone ev hev
    simp only [analyze_system_state, hnone] at hev
    by_cases hcond : 15 < a.total_seconds_monitored + 1 ∧
        a.total_seconds_monitored + 1 < 17 ∧ roll = true ∧ True
    · rw [if_pos hcond] at hev
      dsimp only at hev
      simp only [Except.ok.injEq, Option.some.injEq] at hev
      obtain ⟨h15, h17, hroll, -⟩ := hcond
      have hmem : deadlock_pairs.getD (choice % deadlock_pairs.length) ("", "") ∈
          deadlock_pairs := by
        have hlen : deadlock_pairs.length = 3 := rfl
        rw [hlen]
        have h3 : choice % 3 = 0 ∨ choice % 3 = 1 ∨ choice % 3 = 2 := by omega
        rcases h3 with h | h | h <;> rw [h] <;> simp [deadlock_pairs]
      refine ⟨h15, h17, hroll, ?_, ?_, ?_⟩
      · rw [← hev]
      · rw [← hev]
      · exact ⟨deadlock_pairs.getD (choice % deadlock_pairs.length) ("", ""), hmem,
          by rw [← hev]⟩
    · rw [if_neg hcond] at hev
      simp at hev

/-- Witness for C5: at elapsed time 16 with a quiet sample and a firing
roll, the returned event is the injected mocked deadlock. -/
theorem fault_injection_witness :
    (∀ ev, (analyze_system_state
          { initAnalyzer with total_seconds_monitored := 15 }
          (Except.ok ⟨[("R", some 0)], 0⟩) true 0).2 = Except.ok (some ev) →
        15 < ({ initAnalyzer with total_seconds_monitored := 15 } :
            RealTimeAnalyzer).total_seconds_monitored + 1 ∧
          ({ initAnalyzer with total_seconds_monitored := 15 } :
            RealTimeAnalyzer).total_seconds_monitored + 1 < 17 ∧
          true = true ∧
          ev.time = ({ initAnalyzer with total_seconds_monitored := 15 } :
            RealTimeAnalyzer).total_seconds_monitored + 1 ∧ ev.type = "ERROR" ∧
          ∃ p ∈ deadlock_pairs, ev.message = deadlockMsg p.1 p.2) :=
  (fault_injection_only_without_contention_event
      { initAnalyzer with total_seconds_monitored := 15 }
      ⟨[("R", some 0)], 0⟩ true 0).2 (by with_unfolding_all decide)

/-- C6 counterexample: a sample whose first entry lacks its wait-ticks value
makes `analyze_system_state` raise (the `data` lookup fails), the remaining
above-threshold entry is never evaluated and no event is logged — the call
is not the claimed non-fatal skip. -/
theorem missing_wait_ticks_fails :
    (analyze_system_state initAnalyzer
        (Except.ok ⟨[("A", none), ("B", some 70)], 0⟩) false 0).2 =
      Except.error "KeyError: Total_Wait_Time" ∧
    RealTimeAnalyzer.events (analyze_system_state initAnalyzer
        (Except.ok ⟨[("A", none), ("B", some 70)], 0⟩) false 0).1 = [] := by
  with_unfolding_all decide

/-- C6 amended: an entry with a present but negative wait-ticks value meets
neither threshold, so it is effectively skipped: the call still succeeds,
the tick still advances, and the contention classification is the same as on
the sample with the negative entries removed.  An entry with a missing
wait-ticks value, by contrast, makes the call raise. -/
theorem negative_wait_ticks_skipped (a : RealTimeAnalyzer) (s : Sample) (roll : Bool)
    (choice : ℕ) (h : wellFormed s.contention = true) :
    (∃ r, (analyze_system_state a (Except.ok s) roll choice).2 = Except.ok r) ∧
    (analyze_system_state a (Except.ok s) roll choice).1.total_seconds_monitored =
      a.total_seconds_monitored + 1 ∧
    scanContention (a.total_seconds_monitored + 1) s.contention none =
      scanContention (a.total_seconds_monitored + 1)
        (s.contention.filter (fun p => decide ((0 : Int) ≤ p.2.getD 0))) none := by
  refine ⟨?_, analyze_total a (Except.ok s) roll choice,
    scan_filter_nonneg (a.total_seconds_monitored + 1) s.contention none h⟩
  obtain ⟨r, hr⟩ := scan_wf_ok (a.total_seconds_monitored + 1) s.contention none h
  simp only [analyze_system_state, hr]
  split
  · rename_i e _
    exact ⟨some e, rfl⟩
  · exact ⟨none, rfl⟩

/-- Witness for the amended C6: a sample with a negative entry followed by
an ERROR-level entry succeeds, advances the tick, and classifies as if the
negative entry were absent. -/
theorem negative_wait_ticks_skipped_witness :
    wellFormed ([("N", some (-5)), ("B", some 70)] : List (String × Option Int)) = true ∧
    ((∃ r, (analyze_system_state initAnalyzer
          (Except.ok ⟨[("N", some (-5)), ("B", some 70)], 0⟩) false 0).2 = Except.ok r) ∧
      RealTimeAnalyzer.total_seconds_monitored (analyze_system_state initAnalyzer
          (Except.ok ⟨[("N", some (-5)), ("B", some 70)], 0⟩) false 0).1 =
        initAnalyzer.total_seconds_monitored + 1 ∧
      scanContention (initAnalyzer.total_seconds_monitored + 1)
          [("N", some (-5)), ("B", some 70)] none =
        scanContention (initAnalyzer.total_seconds_monitored + 1)
          (([("N", some (-5)), ("B", some 70)] : List (String × Option Int)).filter
            (fun p => decide ((0 : Int) ≤ p.2.getD 0))) none) :=
  ⟨by decide,
    negative_wait_ticks_skipped initAnalyzer ⟨[("N", some (-5)), ("B", some 70)], 0⟩
      false 0 (by decide)⟩

/-- C7 counterexample: when the sampler raises, `total_seconds_monitored`
has already been incremented (state IS mutated), and the exception escaping
`run` kills the worker: the following good iteration is never executed and
nothing further is delivered. -/
theorem sampler_failure_mutates_and_halts :
    RealTimeAnalyzer.total_seconds_monitored (analyze_system_state initAnalyzer
        (Except.error ()) false 0).1 = 1 ∧
    RealTimeAnalyzer.total_seconds_monitored
        (workerRun initAnalyzer
          [⟨Except.error (), false, 0⟩, ⟨Except.ok ⟨[("R", some 45)], 5⟩, false, 0⟩]).1 = 1 ∧
    (workerRun initAnalyzer
        [⟨Except.error (), false, 0⟩, ⟨Except.ok ⟨[("R", some 45)], 5⟩, false, 0⟩]).2 = [] := by
  with_unfolding_all decide

/-- C7 amended: a failing sampler makes the `analyze_system_state` call raise
after having already incremented `total_seconds_monitored` (the other state
components are untouched), and the exception propagates out of the worker
loop, which terminates instead of proceeding to the next iteration. -/
theorem sampler_failure_behavior (a : RealTimeAnalyzer) (u : Unit) (roll : Bool)
    (choice : ℕ) (rest : List StepInput) :
    (analyze_system_state a (Except.error u) roll choice).1 =
      { a with total_seconds_monitored := a.total_seconds_monitored + 1 } ∧
    (analyze_system_state a (Except.error u) roll choice).2 =
      Except.error "SamplerError" ∧
    workerRun a (⟨Except.error u, roll, choice⟩ :: rest) =
      ((analyze_system_state a (Except.error u) roll choice).1, []) :=
  ⟨rfl, rfl, rfl⟩

/-- C8 counterexample: with interval 10 and a stop request at time 1 (during
the first sleep), the `time.sleep`-based loop only returns at time 10 — the
full interval elapses — whereas the interruptible wait required by the claim
would return at time 1.  The stop request does not shorten the wait. -/
theorem sleep_not_interruptible :
    runLoopCode 10 1 2 0 = some (10, [0]) ∧
    runLoopInterruptible 10 1 2 0 = some (1, [0]) ∧ (10 : ℕ) ≠ 1 := by
  decide

/-- C8 amended: the sleep is `time.sleep`, not an interruptible wait, so a
stop request during a sleep lets the full interval elapse; nevertheless the
loop observes the request at the next iteration top, so stop-then-join
returns within one interval of the request, and every callback invocation
happens strictly before the loop returns. -/
theorem stop_join_within_one_interval (interval stopTime fuel ex : ℕ) (ts : List ℕ)
    (hpos : 0 < interval)
    (h : runLoopCode interval stopTime fuel 0 = some (ex, ts)) :
    stopTime ≤ ex ∧ ex < stopTime + interval ∧ ∀ u ∈ ts, u < ex :=
  runLoopCode_exit_bound interval stopTime hpos fuel 0 ex ts (Nat.zero_le _) h

/-- Witness for the amended C8: interval 10, stop at 25 — the loop returns
at 30, within one interval of the request, after callbacks at 0, 10, 20. -/
theorem stop_join_within_one_interval_witness :
    (0 : ℕ) < 10 ∧ runLoopCode 10 25 5 0 = some (30, [0, 10, 20]) ∧
    (25 ≤ 30 ∧ 30 < 25 + 10 ∧ ∀ u ∈ ([0, 10, 20] : List ℕ), u < 30) :=
  ⟨by decide, by decide,
    stop_join_within_one_interval 10 25 5 30 [0, 10, 20] (by decide) (by decide)⟩

/-- C9: after a successful call, `last_contention_data` is exactly the
sample's contention mapping — a wholesale replacement, never a merge — and
`get_contention_data` returns the names and wait-tick values of that mapping
in its insertion order. -/
theorem latest_contention_wholesale_snapshot (a : RealTimeAnalyzer) (s : Sample)
    (roll : Bool) (choice : ℕ) (h : wellFormed s.contention = true) :
    (analyze_system_state a (Except.ok s) roll choice).1.last_contention_data =
      s.contention ∧
    get_contention_data (analyze_system_state a (Except.ok s) roll choice).1 =
      Except.ok (s.contention.map Prod.fst, s.contention.map (fun p => p.2.getD 0)) := by
  have hlast := analyze_ok_last_contention a s roll choice
  refine ⟨hlast, ?_⟩
  simp only [get_contention_data, hlast, collect_wf s.contention h]

/-- Witness for C9: a two-entry sample is reflected verbatim in the snapshot
accessor, names first, wait ticks second, in insertion order. -/
theorem latest_contention_witness :
    wellFormed ([("X", some 3), ("Y", some 9)] : List (String × Option Int)) = true ∧
    ((analyze_system_state initAnalyzer
          (Except.ok ⟨[("X", some 3), ("Y", some 9)], 2⟩) false 0).1.last_contention_data =
        [("X", some 3), ("Y", some 9)] ∧
      get_contention_data (analyze_system_state initAnalyzer
          (Except.ok ⟨[("X", some 3), ("Y", some 9)], 2⟩) false 0).1 =
        Except.ok (([("X", some 3), ("Y", some 9)] :
            List (String × Option Int)).map Prod.fst,
          ([("X", some 3), ("Y", some 9)] :
            List (String × Option Int)).map (fun p => p.2.getD 0))) :=
  ⟨by decide,
    latest_contention_wholesale_snapshot initAnalyzer
      ⟨[("X", some 3), ("Y", some 9)], 2⟩ false 0 (by decide)⟩

/-- C10: every event a call returns, and every event in the log after any
run from a fresh analyzer, has severity ERROR or WARNING — never INFO, even
though the severity vocabulary of the consumer includes it. -/
theorem events_severity_error_or_warning :
    (∀ (a : RealTimeAnalyzer) (inp : Except Unit Sample) (roll : Bool) (choice : ℕ) ev,
        (analyze_system_state a inp roll choice).2 = Except.ok (some ev) →
        (ev.type = "ERROR" ∨ ev.type = "WARNING") ∧ ev.type ≠ "INFO") ∧
    (∀ (l : List StepInput), ∀ ev ∈ (runAnalyzer initAnalyzer l).events,
        (ev.type = "ERROR" ∨ ev.type = "WARNING") ∧ ev.type ≠ "INFO") := by
  have hone : ∀ (a : RealTimeAnalyzer) (inp : Except Unit Sample) (roll : Bool)
      (choice : ℕ) (ev : Event),
      (analyze_system_state a inp roll choice).2 = Except.ok (some ev) →
      ev.type = "ERROR" ∨ ev.type = "WARNING" := by
    intro a inp roll choice ev h
    exact analyze_event_inv a inp roll choice
      (fun e => e.type = "ERROR" ∨ e.type = "WARNING")
      (fun _ => Or.inl rfl) (fun _ => Or.inr rfl) (fun _ _ => Or.inl rfl) ev h
  have hinfo : ∀ ev : Event, (ev.type = "ERROR" ∨ ev.type = "WARNING") →
      ev.type ≠ "INFO" := by
    intro ev h
    rcases h with h | h <;> rw [h] <;> decide
  constructor
  · intro a inp roll choice ev h
    exact ⟨hone a inp roll choice ev h, hinfo ev (hone a inp roll choice ev h)⟩
  · intro l
    have hrun : ∀ (l : List StepInput) (a : RealTimeAnalyzer),
        (∀ e ∈ a.events, e.type = "ERROR" ∨ e.type = "WARNING") →
        ∀ e ∈ (runAnalyzer a l).events, e.type = "ERROR" ∨ e.type = "WARNING" := by
      intro l2
      induction l2 with
      | nil => intro a ha; simpa [runAnalyzer] using ha
      | cons i rest ih =>
        intro a ha
        obtain ⟨tl0, h1, -, -, h4⟩ := analyze_events_spec a i.sample i.roll i.choice
        refine ih _ ?_
        intro e he
        rw [h1, List.mem_append] at he
        rcases he with he | he
        · exact ha e he
        · exact hone a i.sample i.roll i.choice e (h4 e he)
    intro ev hev
    have := hrun l initAnalyzer (by simp [initAnalyzer]) ev hev
    exact ⟨this, hinfo ev this⟩

/-- Witness for C10: the concrete ERROR event returned for an
above-threshold sample has severity ERROR, hence not INFO. -/
theorem events_severity_witness :
    ((Event.mk 1 "ERROR" (errMsg "B")).type = "ERROR" ∨
      (Event.mk 1 "ERROR" (errMsg "B")).type = "WARNING") ∧
    (Event.mk 1 "ERROR" (errMsg "B")).type ≠ "INFO" :=
  events_severity_error_or_warning.1 initAnalyzer
    (Except.ok ⟨[("B", some 70)], 0⟩) false 0 (Event.mk 1 "ERROR" (errMsg "B"))
    (by with_unfolding_all decide)

end IPC
